import Mathlib

/-!
Verification of `describe.py`, a self-describing renderer that turns a Python
program's syntax tree and bytecode into English prose.

The development shallowly embeds the parts of the source that the claims are
about:

* the value / code-object / instruction data model (`Value`, `CodeObj`, `Op`);
* the pure text helpers `describe_number`, `as_list`, `escape_string`;
* the constant describer `describe_value` with its discovery-queue threading
  (the Python `codes` list, mutated by appending, is passed explicitly);
* the instruction dispatcher `describe_op` (heading logic for jump targets)
  over a registry fragment `opRule` holding the opcode rules the claims
  exercise, with absent keys modelling `descriptors.get(opname, None)`;
* the driver loop of `describe_file` (`renderOps` for the inner `for` loop,
  `drainLoop` for the outer `while codes:` loop), with an explicit fuel
  parameter so that termination is a provable statement rather than an
  assumption;
* the tree dispatcher `describe_node` on a representative fragment of node
  kinds plus an `unknown` constructor modelling a node whose class name is
  absent from the registry.

Fallible Python code (IndexError from `as_list` on an empty sequence, the
out-of-range negative list index in `describe_number`) is modelled with
`Option`: `none` is a raised exception.
-/

mutual
/-- A constant operand value, as `describe_value` discriminates it with
`isinstance`: a nested code object, a string, an integer, `None`, a tuple, or
anything else (carrying its `repr`, which is what the fallback returns). -/
inductive Value where
  | code : CodeObj → Value
  | str : String → Value
  | int : Int → Value
  | none : Value
  | tuple : List Value → Value
  | other : String → Value

/-- A compiled code object: `co_name`, `co_firstlineno`, and its instruction
sequence as produced by `dis.get_instructions`. -/
inductive CodeObj where
  | mk : String → Nat → List Op → CodeObj

/-- One bytecode instruction: `opname`, `argval`, `offset`, the truthiness of
`starts_line`, and `is_jump_target`. -/
inductive Op where
  | mk : String → Value → Nat → Bool → Bool → Op
end

/-- The discovery queue: the Python `codes` list of `(label, code object)`
pairs, appended to by `describe_value` and drained from the front by the
driver loop in `describe_file`. -/
abbrev QList := List (String × CodeObj)

def CodeObj.co_name : CodeObj → String
  | .mk n _ _ => n

def CodeObj.co_firstlineno : CodeObj → Nat
  | .mk _ l _ => l

def CodeObj.ops : CodeObj → List Op
  | .mk _ _ o => o

def Op.opname : Op → String
  | .mk n _ _ _ _ => n

def Op.argval : Op → Value
  | .mk _ v _ _ _ => v

def Op.offset : Op → Nat
  | .mk _ _ o _ _ => o

def Op.starts_line : Op → Bool
  | .mk _ _ _ s _ => s

def Op.is_jump_target : Op → Bool
  | .mk _ _ _ _ j => j

/-- The word table of `describe_number`. -/
def words : List String :=
  ["zero", "one", "two", "three", "four", "five", "six", "seven", "eight",
   "nine", "ten"]

/-- Python list indexing `xs[i]`: negative indices count from the end, and an
index out of range raises `IndexError` (here `none`). -/
def pyIndex (xs : List String) (i : Int) : Option String :=
  let j : Int := if i < 0 then (xs.length : Int) + i else i
  if 0 ≤ j ∧ j < (xs.length : Int) then xs.get? j.toNat else Option.none

/-- `describe_number` from the source, branch for branch: `0 <= num <= 10`
returns `words[num]`; otherwise `num >= -10` returns `"minus " + words[-num]`
(note this branch also catches every `num > 10`, where `words[-num]` is a
negative Python index); otherwise `str(num)`. -/
def describe_number (num : Int) : Option String :=
  if 0 ≤ num ∧ num ≤ 10 then pyIndex words num
  else if -10 ≤ num then (pyIndex words (-num)).map (fun w => "minus " ++ w)
  else some (toString num)

/-- Python `sep.join(items)`: the elements in order with `sep` between each
adjacent pair. -/
def pyJoin (sep : String) : List String → String
  | [] => ""
  | [x] => x
  | x :: xs => x ++ sep ++ pyJoin sep xs

/-- `as_list` from the source: a one-element list returns its element;
otherwise `', '.join(items[:-1]) + ", and " + items[-1]`, where `items[-1]`
raises `IndexError` on an empty list (`none`). -/
def as_list (items : List String) : Option String :=
  if items.length = 1 then items.head?
  else
    match items.getLast? with
    | some last =>
        some (pyJoin ", " items.dropLast ++ ", and " ++ last)
    | Option.none => Option.none

/-- The character class of the first `re.sub` in `escape_string`:
underscore, backtick, asterisk, backslash, hash. -/
def isSpecial (c : Char) : Bool :=
  c = '_' || c = Char.ofNat 96 || c = '*' || c = '\\' || c = '#'

/-- First `re.sub` pass of `escape_string`: each structural character is
replaced by a backslash followed by itself. -/
def sub1 : List Char → List Char
  | [] => []
  | c :: cs => if isSpecial c then '\\' :: c :: sub1 cs else c :: sub1 cs

/-- Second `re.sub` pass of `escape_string`: each newline is replaced by the
three characters backslash, backslash, `n` (the replacement text `\\\\n`
denotes two literal backslashes followed by `n`). -/
def sub2 : List Char → List Char
  | [] => []
  | c :: cs =>
      if c = Char.ofNat 10 then '\\' :: '\\' :: 'n' :: sub2 cs else c :: sub2 cs

/-- `escape_string` from the source: the two `re.sub` passes in order. -/
def escape_string (s : String) : String :=
  String.mk (sub2 (sub1 s.data))

/-- The label computation inlined in `describe_value`'s code-object branch:
`value.co_name`, except that a name starting with `<` (checked on the first
character, which is what `startswith('<')` means) becomes
`co_name[1:-1] + ':' + str(co_firstlineno)`; the slice `[1:-1]` drops the
first and last characters. -/
def labelOf (c : CodeObj) : String :=
  if c.co_name.data.head? = some '<' then
    String.mk ((c.co_name.data.drop 1).dropLast) ++ ":" ++
      toString c.co_firstlineno
  else c.co_name

mutual
/-- `describe_value` from the source, with the mutation of `codes` made
explicit: the result is the produced text together with the updated queue, and
`none` models a raised exception. The tuple branch forces every element
description left to right (the `list(items)` inside `as_list`) before
`as_list` runs. -/
def describe_value : Value → QList → Option (String × QList)
  | .code c, codes =>
      some ("the code object described under " ++ labelOf c,
            codes ++ [(labelOf c, c)])
  | .str s, codes =>
      some ("the literal string *\x27" ++ escape_string s ++ "\x27*", codes)
  | .int n, codes =>
      match describe_number n with
      | some w => some ("the integer constant " ++ w, codes)
      | Option.none => Option.none
  | .none, codes => some ("the constant None", codes)
  | .tuple vs, codes =>
      match describe_values vs codes with
      | some (items, codes2) =>
          match as_list items with
          | some t => some ("the tuple consisting of " ++ t, codes2)
          | Option.none => Option.none
      | Option.none => Option.none
  | .other r, codes => some (r, codes)

/-- The generator `describe_value(x, codes) for x in value`, forced left to
right, threading the queue. -/
def describe_values : List Value → QList → Option (List String × QList)
  | [], codes => some ([], codes)
  | v :: vs, codes =>
      match describe_value v codes with
      | some (s, c2) =>
          match describe_values vs c2 with
          | some (ss, c3) => some (s :: ss, c3)
          | Option.none => Option.none
      | Option.none => Option.none
end

/-- Opcode rule `LOAD_CONST` from the source. -/
def LOAD_CONST (op : Op) (codes : QList) : Option (String × QList) :=
  match describe_value op.argval codes with
  | some (v, codes2) =>
      some ("The computer places " ++ v ++ " on top of the stack.", codes2)
  | Option.none => Option.none

/-- Opcode rule `RETURN_VALUE` from the source. -/
def RETURN_VALUE (op : Op) (codes : QList) : Option (String × QList) :=
  some ("The computer exits the current function, returning the top value on the stack.",
        codes)

/-- Opcode rule `EXTENDED_ARG` from the source: renders empty. -/
def EXTENDED_ARG (op : Op) (codes : QList) : Option (String × QList) :=
  some ("", codes)

/-- Opcode rule `JUMP_IF_FALSE_OR_POP` from the source. The source template
ends with `.format` never being called, so the braces stay in the text. -/
def JUMP_IF_FALSE_OR_POP (op : Op) (codes : QList) : Option (String × QList) :=
  some ("The computer looks at the top value on the stack. If it is false-like (e.g. False, None or zero), it jumps to offset {}. Otherwise it removes the top value from the stack.",
        codes)

/-- The fragment of the `descriptors` registry exercised by the claims, keyed
by opcode name exactly as `@descriptor` registers each rule under its function
name; an absent key models `descriptors.get(op.opname, None)` returning
`None`. -/
def opRule (opname : String) :
    Option (Op → QList → Option (String × QList)) :=
  if opname = "LOAD_CONST" then some LOAD_CONST
  else if opname = "RETURN_VALUE" then some RETURN_VALUE
  else if opname = "EXTENDED_ARG" then some EXTENDED_ARG
  else if opname = "JUMP_IF_FALSE_OR_POP" then some JUMP_IF_FALSE_OR_POP
  else Option.none

/-- First half of `describe_op`: `s = f(op, codes)` when the opname is
registered, else `s = ''`. -/
def op_s (op : Op) (codes : QList) : Option (String × QList) :=
  match opRule op.opname with
  | some f => f op codes
  | Option.none => some ("", codes)

/-- `describe_op` from the source: compute `s` by dispatch, then, if
`op.is_jump_target`, prepend the `### Offset {}` heading. -/
def describe_op (op : Op) (codes : QList) : Option (String × QList) :=
  match op_s op codes with
  | some (s, codes2) =>
      some (if op.is_jump_target then
              "\n\n### Offset " ++ toString op.offset ++ "\n\n" ++ s
            else s,
            codes2)
  | Option.none => Option.none

/-- The inner `for op in dis.get_instructions(code)` loop of `describe_file`:
each instruction is described (mutating the queue), an empty description is
skipped via `continue`, otherwise a paragraph break is inserted when
`op.starts_line` and the description plus a space is appended. -/
def renderOps : List Op → QList → String → Option (String × QList)
  | [], codes, txt => some (txt, codes)
  | op :: rest, codes, txt =>
      match describe_op op codes with
      | some (desc, codes2) =>
          if desc = "" then renderOps rest codes2 txt
          else
            renderOps rest codes2
              (txt ++ (if op.starts_line then "\n\n" else "") ++ (desc ++ " "))
      | Option.none => Option.none

/-- Outcome of running the driver loop: a finished document fragment, a raised
exception, or fuel exhaustion (an artifact of the fuel embedding only, shown
below never to occur when the fuel is the queue measure). -/
inductive RunResult where
  | ok : String → RunResult
  | err : RunResult
  | fuelOut : RunResult
deriving DecidableEq

/-- The outer `while codes:` loop of `describe_file`: pop the front pair,
append the `## {}` section heading for its label, render its instructions
(growing the queue), append a blank line, repeat. -/
def drainLoop : Nat → QList → String → RunResult
  | _, [], txt => .ok txt
  | 0, _ :: _, _ => .fuelOut
  | Nat.succ n, (name, c) :: rest, txt =>
      match renderOps c.ops rest (txt ++ "## " ++ name) with
      | some (txt2, rest2) => drainLoop n rest2 (txt2 ++ "\n\n")
      | Option.none => .err

/-- A syntax-tree node for the Tree Renderer fragment the claims exercise:
`Module`, `Name` and `Num` carry the children their registered rules read, and
`unknown` models a node whose class name is absent from the `descriptors`
registry, carrying that class name, the node's `str(node)` representation and
its `_fields` (printed to the diagnostic stream, which is not modelled). -/
inductive Node where
  | Module : List Node → Node
  | Name : String → Node
  | Num : Int → Node
  | unknown : String → String → List String → Node

mutual
/-- `describe_node` from the source: dispatch on the node's class name through
the registry; for a registered kind run its rule (`Module`, `Name`, `Num`
shown here, rule for rule from the source), and for an absent kind print a
diagnostic and return `str(node)`. -/
def describe_node : Node → String
  | .Module body =>
      "A module, containing the following code:\n\n" ++ describe_nodes body
  | .Name id => "the name `" ++ id ++ "`"
  | .Num n => "a numeric constant with value " ++ toString n
  | .unknown _ reprStr _ => reprStr

/-- The `'\n\n'.join(describe_node(n) for n in node.body)` of the `Module`
rule. -/
def describe_nodes : List Node → String
  | [] => ""
  | [n] => describe_node n
  | n :: ns => describe_node n ++ "\n\n" ++ describe_nodes ns
end

/-- The concrete nested block `B1` of the first-encountered-order scenario: a
function named `f`. -/
def exB1 : CodeObj := CodeObj.mk "f" 1 []

/-- The concrete nested block `B2` of the first-encountered-order scenario: a
function named `g`. -/
def exB2 : CodeObj := CodeObj.mk "g" 2 []

/-- The concrete top-level block of the first-encountered-order scenario: its
constants reference `exB1` first and `exB2` second. -/
def exTop : CodeObj :=
  CodeObj.mk "top" 1
    [Op.mk "LOAD_CONST" (Value.code exB1) 0 true false,
     Op.mk "LOAD_CONST" (Value.code exB2) 2 false false,
     Op.mk "RETURN_VALUE" Value.none 4 false false]

/-- Spec-side per-character description of the escaping (the amended claim
C3): a structural character gains one backslash, a newline becomes the three
characters backslash, backslash, `n`, and every other character is kept. -/
def escapeCharSpec (c : Char) : List Char :=
  if isSpecial c then ['\\', c]
  else if c = Char.ofNat 10 then ['\\', '\\', 'n']
  else [c]

theorem isSpecial_ne_newline {c : Char} (h : isSpecial c = true) :
    ¬ c = Char.ofNat 10 := by
  intro hc
  subst hc
  simp [isSpecial] at h

theorem sub2_sub1_eq (l : List Char) :
    sub2 (sub1 l) = (l.map escapeCharSpec).flatten := by
  induction l with
  | nil => rfl
  | cons c cs ih =>
      by_cases hs : isSpecial c
      · have hc := isSpecial_ne_newline hs
        simp [sub1, sub2, escapeCharSpec, hs, hc, ih]
      · by_cases hn : c = Char.ofNat 10
        · subst hn
          simp [sub1, sub2, escapeCharSpec, hs, ih]
        · simp [sub1, sub2, escapeCharSpec, hs, hn, ih]

theorem sub2_no_newline (l : List Char) : Char.ofNat 10 ∉ sub2 l := by
  induction l with
  | nil => simp [sub2]
  | cons c cs ih =>
      by_cases hn : c = Char.ofNat 10
      · subst hn
        simp [sub2, ih]
      · simp [sub2, hn, ih]
        intro h
        exact absurd h.symm hn

/-- C2: the number-naming rule spells the words for 0..10 and "minus word"
for -10..-1, but for integers above 10 the `elif num >= -10` branch also
fires, so `describe_number 11` evaluates `words[-11]` (a Python negative
index, which is `words[0]`) and returns "minus zero", and `describe_number 12`
evaluates `words[-12]`, which is out of range and raises `IndexError` — the
claimed decimal-numeral result `str(n)` is only reached for `n < -10`. -/
theorem describe_number_overflow_bug :
    describe_number 11 = some "minus zero"
    ∧ describe_number 12 = Option.none
    ∧ describe_number 11 ≠ some "11"
    ∧ describe_number 7 = some "seven"
    ∧ describe_number 0 = some "zero"
    ∧ describe_number 10 = some "ten"
    ∧ describe_number (-1) = some "minus one"
    ∧ describe_number (-10) = some "minus ten"
    ∧ describe_number (-11) = some "-11" := by
  refine ⟨by decide, by decide, by decide, by decide, by decide, by decide,
    by decide, by decide, by decide⟩

/-- C3 counterexample: `escape_string` turns one newline into the THREE
characters backslash, backslash, `n`, not a two-character sequence. -/
theorem escape_newline_three_chars_ce :
    (escape_string "\n").data = ['\\', '\\', 'n']
    ∧ ¬ (escape_string "\n").length = 2 := by
  refine ⟨by decide, by decide⟩

/-- C3 amended: `escape_string` rewrites its input character by character —
each of underscore, backtick, asterisk, hash and backslash gains exactly one
escaping backslash, each newline becomes the three-character sequence
backslash-backslash-n, and every other character is kept — so the result
contains no real newline character. -/
theorem escape_string_amended :
    (∀ s : String, (escape_string s).data = (s.data.map escapeCharSpec).flatten)
    ∧ (∀ s : String, Char.ofNat 10 ∉ (escape_string s).data) := by
  constructor
  · intro s
    exact sub2_sub1_eq s.data
  · intro s
    exact sub2_no_newline (sub1 s.data)

/-- C6: the oxford-style enumeration maps `[a]` to `a`, `[a, b]` to
`"a, and b"`, `["X","Y","Z"]` to `"X, Y, and Z"`, and in general a list with
at least two elements to all but the last joined with `", "` followed by
`", and "` and the last element. -/
theorem as_list_oxford :
    (∀ a : String, as_list [a] = some a)
    ∧ (∀ a b : String, as_list [a, b] = some (a ++ ", and " ++ b))
    ∧ as_list ["X", "Y", "Z"] = some "X, Y, and Z"
    ∧ (∀ (l : List String) (z : String), l ≠ [] →
        as_list (l ++ [z]) = some (pyJoin ", " l ++ ", and " ++ z)) := by
  refine ⟨fun a => rfl, fun a b => ?_, by decide, fun l z hl => ?_⟩
  · simp [as_list, pyJoin]
  · have hlen : (l ++ [z]).length ≠ 1 := by
      cases l with
      | nil => exact absurd rfl hl
      | cons x xs => simp
    simp [as_list, hlen, List.getLast?_concat, List.dropLast_concat]
    intro h
    exact absurd h hl

/-- C6 witness: the general clause at `l = ["X", "Y"]`, `z = "Z"`. -/
theorem as_list_oxford_w :
    as_list (["X", "Y"] ++ ["Z"]) = some (pyJoin ", " ["X", "Y"] ++ ", and " ++ "Z") :=
  as_list_oxford.2.2.2 ["X", "Y"] "Z" (by decide)

/-- C9: the rendering rule for `JUMP_IF_FALSE_OR_POP` returns the same fixed
string for every instruction and queue — the template still contains the
literal placeholder `{}` because the source never calls `.format` on it, so
the actual jump-target offset is never interpolated. -/
theorem jump_if_false_or_pop_template :
    ∀ (op : Op) (codes : QList),
      JUMP_IF_FALSE_OR_POP op codes =
        some ("The computer looks at the top value on the stack. If it is false-like (e.g. False, None or zero), it jumps to offset "
                ++ "{}"
                ++ ". Otherwise it removes the top value from the stack.",
              codes) := by
  intro op codes
  rfl

/-- C10: `as_list` fails on an empty input (out-of-range index on the last
element), so `describe_value` on an empty tuple constant fails too, and so
does rendering a `LOAD_CONST` instruction whose operand is an empty tuple. -/
theorem as_list_empty_failure :
    as_list [] = Option.none
    ∧ describe_value (Value.tuple []) [] = Option.none
    ∧ describe_op (Op.mk "LOAD_CONST" (Value.tuple []) 0 false false) [] =
        Option.none := by
  refine ⟨rfl, rfl, rfl⟩

/-- C7 counterexample: two distinct anonymous blocks — two lambdas compiled
from the same source line — receive the same synthetic label `lambda:3`, and
one run of the Value Describer over a tuple referencing both enqueues the two
distinct blocks under that one label, so labels are not unique across the
document. -/
theorem label_collision_ce :
    labelOf (CodeObj.mk "<lambda>" 3 []) =
      labelOf (CodeObj.mk "<lambda>" 3
        [Op.mk "RETURN_VALUE" Value.none 0 false false])
    ∧ CodeObj.mk "<lambda>" 3 [] ≠
        CodeObj.mk "<lambda>" 3 [Op.mk "RETURN_VALUE" Value.none 0 false false]
    ∧ describe_value
        (Value.tuple
          [Value.code (CodeObj.mk "<lambda>" 3 []),
           Value.code (CodeObj.mk "<lambda>" 3
             [Op.mk "RETURN_VALUE" Value.none 0 false false])]) [] =
      some ("the tuple consisting of the code object described under lambda:3, and the code object described under lambda:3",
            [("lambda:3", CodeObj.mk "<lambda>" 3 []),
             ("lambda:3", CodeObj.mk "<lambda>" 3
               [Op.mk "RETURN_VALUE" Value.none 0 false false])]) := by
  refine ⟨rfl, ?_, rfl⟩
  intro h
  simp at h

/-- C7 amended: every block with a declared name (one not starting with `<`)
is labelled with that name, and every anonymous block gets the synthetic label
formed from its kind (the angle-bracketed name with the brackets stripped) and
its first source line number; `describe_value` enqueues each block under
exactly that label — but the derivation does not guarantee uniqueness: two
anonymous blocks of the same kind on the same line receive the same label. -/
theorem label_derivation_amended :
    (∀ (c : CodeObj) (codes : QList),
        describe_value (Value.code c) codes =
          some ("the code object described under " ++ labelOf c,
                codes ++ [(labelOf c, c)]))
    ∧ (∀ c : CodeObj, c.co_name.data.head? = some '<' →
        labelOf c = String.mk ((c.co_name.data.drop 1).dropLast) ++ ":" ++
          toString c.co_firstlineno)
    ∧ (∀ c : CodeObj, ¬ c.co_name.data.head? = some '<' →
        labelOf c = c.co_name) := by
  refine ⟨fun c codes => rfl, fun c h => ?_, fun c h => ?_⟩
  · simp [labelOf, h]
  · simp [labelOf, h]

/-- C7 witness: the anonymous-label clause at a lambda on line 3. -/
theorem label_derivation_w :
    labelOf (CodeObj.mk "<lambda>" 3 []) =
      String.mk (("<lambda>".data.drop 1).dropLast) ++ ":" ++ toString (3 : Nat) :=
  label_derivation_amended.2.1 (CodeObj.mk "<lambda>" 3 []) rfl

/-- C4 counterexample: a tree node whose class name is absent from the
registry is rendered as `str(node)` — its raw representation — which is not
empty text. -/
theorem unknown_node_nonempty_ce :
    describe_node (Node.unknown "Widget" "<ast.Widget object at 0x10>" []) =
      "<ast.Widget object at 0x10>"
    ∧ ¬ describe_node (Node.unknown "Widget" "<ast.Widget object at 0x10>" []) = "" := by
  refine ⟨rfl, by decide⟩

/-- C4 amended: an instruction whose opcode is absent from the registry
renders as empty text (when it is not a jump target) and the driver's loop
skips it, continuing with the remaining instructions; a tree node whose class
name is absent from the registry does not raise either, but renders as
`str(node)` — the node's raw representation, not empty text — and traversal
of sibling nodes continues unaffected. -/
theorem unknown_kind_fallback_amended :
    (∀ (op : Op) (codes : QList), opRule op.opname = Option.none →
        op.is_jump_target = false → describe_op op codes = some ("", codes))
    ∧ (∀ (op : Op) (rest : List Op) (codes : QList) (txt : String),
        opRule op.opname = Option.none → op.is_jump_target = false →
        renderOps (op :: rest) codes txt = renderOps rest codes txt)
    ∧ (∀ (cn rs : String) (fs : List String),
        describe_node (Node.unknown cn rs fs) = rs)
    ∧ (∀ (cn rs : String) (fs : List String) (n2 : Node),
        describe_node (Node.Module [Node.unknown cn rs fs, n2]) =
          "A module, containing the following code:\n\n" ++
            (rs ++ "\n\n" ++ describe_node n2)) := by
  have hop : ∀ (op : Op) (codes : QList), opRule op.opname = Option.none →
      op.is_jump_target = false → describe_op op codes = some ("", codes) := by
    intro op codes h hj
    simp [describe_op, op_s, h, hj]
  refine ⟨hop, fun op rest codes txt h hj => ?_, fun cn rs fs => rfl,
    fun cn rs fs n2 => rfl⟩
  rw [renderOps, hop op codes h hj]
  simp

/-- C4 witness: an instruction with a made-up opcode, no jump-target flag, is
skipped by the driver and traversal continues with the remaining (here
empty) instruction list. -/
theorem unknown_kind_fallback_w :
    renderOps [Op.mk "NOT_AN_OPCODE" Value.none 0 false false] [] "T" =
      renderOps [] [] "T" :=
  unknown_kind_fallback_amended.2.1
    (Op.mk "NOT_AN_OPCODE" Value.none 0 false false) [] [] "T" rfl rfl

theorem strcat_ne_empty (a b : String) (ha : a.length ≠ 0) : ¬ a ++ b = "" := by
  intro h
  have hlen : (a ++ b).length = 0 := by
    rw [h]
    rfl
  simp only [String.length_append] at hlen
  omega

theorem heading_ne_empty (n : Nat) (x : String) :
    ¬ "\n\n### Offset " ++ toString n ++ "\n\n" ++ x = "" := by
  intro h
  have hlen : ("\n\n### Offset " ++ toString n ++ "\n\n" ++ x).length = 0 := by
    rw [h]
    rfl
  simp only [String.length_append] at hlen
  have hlit : ("\n\n### Offset " : String).length = 13 := by decide
  omega

/-- C5: an instruction whose jump-target flag is set has its rendered output
prefixed with the `### Offset n` heading (with its surrounding paragraph
breaks), and since that prefix is never the empty string the driver emits it
even when the instruction's own rule yields empty text; a non-jump-target
instruction whose rule yields empty text is skipped entirely by the driver
(it contributes nothing to the text). -/
theorem jump_target_heading :
    (∀ (op : Op) (codes codes2 : QList) (s : String),
        op.is_jump_target = true → op_s op codes = some (s, codes2) →
        describe_op op codes =
          some ("\n\n### Offset " ++ toString op.offset ++ "\n\n" ++ s, codes2)
        ∧ ¬ "\n\n### Offset " ++ toString op.offset ++ "\n\n" ++ s = "")
    ∧ (∀ (op : Op) (rest : List Op) (codes : QList) (txt : String),
        op.is_jump_target = false → op_s op codes = some ("", codes) →
        renderOps (op :: rest) codes txt = renderOps rest codes txt)
    ∧ (∀ (op : Op) (rest : List Op) (codes : QList) (txt : String),
        op.is_jump_target = true → op.starts_line = false →
        op_s op codes = some ("", codes) →
        renderOps (op :: rest) codes txt =
          renderOps rest codes
            (txt ++ "\n\n### Offset " ++ toString op.offset ++ "\n\n" ++ " ")) := by
  refine ⟨fun op codes codes2 s hj h => ?_,
    fun op rest codes txt hj h => ?_,
    fun op rest codes txt hj hsl h => ?_⟩
  · constructor
    · simp [describe_op, h, hj]
    · exact heading_ne_empty op.offset s
  · rw [renderOps]
    have hd : describe_op op codes = some ("", codes) := by
      simp [describe_op, h, hj]
    rw [hd]
    simp
  · have hd : describe_op op codes =
        some ("\n\n### Offset " ++ toString op.offset ++ "\n\n" ++ "", codes) := by
      simp [describe_op, h, hj]
    rw [renderOps]
    simp [hd, hsl, String.append_assoc, String.append_empty]
    intro hfalse
    exact absurd hfalse (strcat_ne_empty "\n\n### Offset " _ (by decide))

/-- C5 witness: a jump-target instruction with a made-up opcode (whose rule
yields empty text) still cuts the `### Offset 5` heading into the text. -/
theorem jump_target_heading_w :
    renderOps [Op.mk "FAKE_OP" Value.none 5 false true] [] "T" =
      renderOps [] []
        ("T" ++ "\n\n### Offset " ++ toString (5 : Nat) ++ "\n\n" ++ " ") :=
  jump_target_heading.2.2 (Op.mk "FAKE_OP" Value.none 5 false true) [] [] "T"
    rfl rfl rfl

set_option maxRecDepth 8192 in
/-- C1: the Value Describer appends every encountered code-object constant,
as a `(label, block)` pair, to the END of the discovery queue; the driver
dequeues from the FRONT, emitting a `## label` section heading that is exactly
the label under which the block was enqueued; consequently, in the concrete
scenario where a top-level block's constants reference block `f` and then
block `g`, the finished document carries the `## f` section before the `## g`
section. -/
theorem fifo_block_discovery :
    (∀ (c : CodeObj) (codes : QList),
        describe_value (Value.code c) codes =
          some ("the code object described under " ++ labelOf c,
                codes ++ [(labelOf c, c)]))
    ∧ (∀ (fuel : Nat) (name : String) (c : CodeObj) (rest rest2 : QList)
          (txt txt2 : String),
        renderOps c.ops rest (txt ++ "## " ++ name) = some (txt2, rest2) →
        drainLoop (fuel + 1) ((name, c) :: rest) txt =
          drainLoop fuel rest2 (txt2 ++ "\n\n"))
    ∧ drainLoop 3 [("prog", exTop)] "" =
        RunResult.ok
          ("## prog\n\nThe computer places the code object described under f on top of the stack. The computer places the code object described under g on top of the stack. The computer exits the current function, returning the top value on the stack. \n\n"
            ++ ("## " ++ labelOf exB1) ++ "\n\n"
            ++ ("## " ++ labelOf exB2) ++ "\n\n") := by
  refine ⟨fun c codes => rfl, fun fuel name c rest rest2 txt txt2 h => ?_, ?_⟩
  · show drainLoop (Nat.succ fuel) ((name, c) :: rest) txt = _
    rw [drainLoop, h]
  · decide

/-- C1 witness: the dequeue-from-the-front step at a concrete one-element
queue. -/
theorem fifo_block_discovery_w :
    drainLoop 1 [("m", CodeObj.mk "m" 1 [])] "" =
      drainLoop 0 [] (("" ++ "## " ++ "m") ++ "\n\n") :=
  fifo_block_discovery.2.1 0 "m" (CodeObj.mk "m" 1 []) [] [] ""
    ("" ++ "## " ++ "m") rfl

mutual
/-- Measure of a constant value: the total weight of the code objects
reachable inside it. -/
def valSize : Value → Nat
  | .code c => codeSize c
  | .tuple vs => valsSize vs
  | .str _ => 0
  | .int _ => 0
  | .none => 0
  | .other _ => 0

def valsSize : List Value → Nat
  | [] => 0
  | v :: vs => valSize v + valsSize vs

/-- Measure of a code object: one plus the weight of its instruction
operands, so a block always outweighs the blocks its constants reference. -/
def codeSize : CodeObj → Nat
  | .mk _ _ ops => 1 + opsSize ops

def opsSize : List Op → Nat
  | [] => 0
  | .mk _ v _ _ _ :: os => valSize v + opsSize os
end

/-- Total measure of a discovery queue. -/
def sizeQ : QList → Nat
  | [] => 0
  | (_, c) :: q => codeSize c + sizeQ q

theorem sizeQ_append (a b : QList) : sizeQ (a ++ b) = sizeQ a + sizeQ b := by
  induction a with
  | nil => simp [sizeQ]
  | cons p q ih =>
      cases p
      simp [sizeQ, ih]
      omega

theorem opsSize_cons (o : Op) (os : List Op) :
    opsSize (o :: os) = valSize o.argval + opsSize os := by
  cases o
  rfl

theorem codeSize_eq (c : CodeObj) : codeSize c = 1 + opsSize c.ops := by
  cases c
  rfl

theorem dv_size_aux : ∀ k : Nat,
    (∀ v : Value, sizeOf v ≤ k → ∀ (codes : QList) (s : String) (c2 : QList),
        describe_value v codes = some (s, c2) →
        sizeQ c2 ≤ sizeQ codes + valSize v)
    ∧ (∀ vs : List Value, sizeOf vs ≤ k →
        ∀ (codes : QList) (ss : List String) (c2 : QList),
        describe_values vs codes = some (ss, c2) →
        sizeQ c2 ≤ sizeQ codes + valsSize vs) := by
  intro k
  induction k with
  | zero =>
      constructor
      · intro v hv
        exfalso
        cases v <;> simp at hv
      · intro vs hvs
        exfalso
        cases vs <;> simp at hvs
  | succ k ih =>
      constructor
      · intro v hv codes s c2 h
        cases v with
        | code c =>
            simp [describe_value] at h
            obtain ⟨-, rfl⟩ := h
            rw [sizeQ_append]
            simp [sizeQ, valSize]
        | str t =>
            simp [describe_value] at h
            obtain ⟨-, rfl⟩ := h
            simp [valSize]
        | int n =>
            cases hn : describe_number n with
            | none => simp [describe_value, hn] at h
            | some w =>
                simp [describe_value, hn] at h
                obtain ⟨-, rfl⟩ := h
                simp [valSize]
        | none =>
            simp [describe_value] at h
            obtain ⟨-, rfl⟩ := h
            simp [valSize]
        | tuple vs =>
            have hvs : sizeOf vs ≤ k := by
              simp at hv
              omega
            cases hd : describe_values vs codes with
            | none => simp [describe_value, hd] at h
            | some p =>
                obtain ⟨items, codes2⟩ := p
                cases ha : as_list items with
                | none => simp [describe_value, hd, ha] at h
                | some t =>
                    simp [describe_value, hd, ha] at h
                    obtain ⟨-, rfl⟩ := h
                    have := ih.2 vs hvs codes items _ hd
                    simpa [valSize] using this
        | other r =>
            simp [describe_value] at h
            obtain ⟨-, rfl⟩ := h
            simp [valSize]
      · intro vs hvs codes ss c2 h
        cases vs with
        | nil =>
            simp [describe_values] at h
            obtain ⟨-, rfl⟩ := h
            simp [valsSize]
        | cons v vs2 =>
            have hv : sizeOf v ≤ k := by
              simp at hvs
              omega
            have hvs2 : sizeOf vs2 ≤ k := by
              simp at hvs
              omega
            cases h1 : describe_value v codes with
            | none => simp [describe_values, h1] at h
            | some p =>
                obtain ⟨s1, c2a⟩ := p
                cases h2 : describe_values vs2 c2a with
                | none => simp [describe_values, h1, h2] at h
                | some q =>
                    obtain ⟨ss1, c3⟩ := q
                    simp [describe_values, h1, h2] at h
                    obtain ⟨-, rfl⟩ := h
                    have b1 := ih.1 v hv codes s1 c2a h1
                    have b2 := ih.2 vs2 hvs2 c2a ss1 _ h2
                    simp [valsSize]
                    omega

theorem describe_value_size (v : Value) (codes : QList) (s : String)
    (c2 : QList) (h : describe_value v codes = some (s, c2)) :
    sizeQ c2 ≤ sizeQ codes + valSize v :=
  (dv_size_aux (sizeOf v)).1 v le_rfl codes s c2 h

theorem op_s_size (op : Op) (codes : QList) (s : String) (c2 : QList)
    (h : op_s op codes = some (s, c2)) :
    sizeQ c2 ≤ sizeQ codes + valSize op.argval := by
  unfold op_s at h
  cases hr : opRule op.opname with
  | none =>
      rw [hr] at h
      simp at h
      obtain ⟨-, rfl⟩ := h
      omega
  | some f =>
      rw [hr] at h
      simp only [] at h
      unfold opRule at hr
      split_ifs at hr with h1 h2 h3 h4
      · injection hr with hf
        subst hf
        unfold LOAD_CONST at h
        cases hd : describe_value op.argval codes with
        | none =>
            rw [hd] at h
            simp at h
        | some p =>
            obtain ⟨v0, c20⟩ := p
            rw [hd] at h
            simp at h
            obtain ⟨-, rfl⟩ := h
            exact describe_value_size op.argval codes v0 _ hd
      · injection hr with hf
        subst hf
        unfold RETURN_VALUE at h
        simp at h
        obtain ⟨-, rfl⟩ := h
        omega
      · injection hr with hf
        subst hf
        unfold EXTENDED_ARG at h
        simp at h
        obtain ⟨-, rfl⟩ := h
        omega
      · injection hr with hf
        subst hf
        unfold JUMP_IF_FALSE_OR_POP at h
        simp at h
        obtain ⟨-, rfl⟩ := h
        omega

theorem describe_op_size (op : Op) (codes : QList) (s : String) (c2 : QList)
    (h : describe_op op codes = some (s, c2)) :
    sizeQ c2 ≤ sizeQ codes + valSize op.argval := by
  unfold describe_op at h
  cases ho : op_s op codes with
  | none => rw [ho] at h; simp at h
  | some p =>
      obtain ⟨s0, c20⟩ := p
      rw [ho] at h
      simp at h
      obtain ⟨-, rfl⟩ := h
      exact op_s_size op codes s0 _ ho

theorem renderOps_size :
    ∀ (ops : List Op) (codes : QList) (txt txt2 : String) (codes2 : QList),
      renderOps ops codes txt = some (txt2, codes2) →
      sizeQ codes2 ≤ sizeQ codes + opsSize ops := by
  intro ops
  induction ops with
  | nil =>
      intro codes txt txt2 codes2 h
      simp [renderOps] at h
      obtain ⟨-, rfl⟩ := h
      simp [opsSize]
  | cons op rest ih =>
      intro codes txt txt2 codes2 h
      rw [renderOps] at h
      cases hd : describe_op op codes with
      | none => rw [hd] at h; simp at h
      | some p =>
          obtain ⟨desc, codesMid⟩ := p
          simp only [hd] at h
          have hmid := describe_op_size op codes desc codesMid hd
          rw [opsSize_cons]
          by_cases he : desc = ""
          · rw [if_pos he] at h
            have := ih codesMid txt txt2 codes2 h
            omega
          · rw [if_neg he] at h
            have := ih codesMid _ txt2 codes2 h
            omega

theorem drain_nofuel :
    ∀ (n : Nat) (q : QList) (txt : String),
      sizeQ q ≤ n → drainLoop n q txt ≠ RunResult.fuelOut := by
  intro n
  induction n with
  | zero =>
      intro q txt hq
      cases q with
      | nil => simp [drainLoop]
      | cons p rest =>
          exfalso
          obtain ⟨name, c⟩ := p
          have hc : 1 ≤ codeSize c := by
            cases c
            simp [codeSize]
          simp [sizeQ] at hq
          omega
  | succ n ih =>
      intro q txt hq
      cases q with
      | nil => simp [drainLoop]
      | cons p rest =>
          obtain ⟨name, c⟩ := p
          rw [drainLoop]
          cases hr : renderOps c.ops rest (txt ++ "## " ++ name) with
          | none => simp
          | some p2 =>
              obtain ⟨txt2, rest2⟩ := p2
              simp only []
              apply ih
              have hsz := renderOps_size c.ops rest _ txt2 rest2 hr
              have hq2 : sizeQ ((name, c) :: rest) = codeSize c + sizeQ rest := rfl
              have hcs := codeSize_eq c
              omega

/-- C8: the driver's drain loop terminates on every queue: run with fuel equal
to the measure `sizeQ q` (which bounds how many blocks can ever be dequeued,
since a dequeued block's newly discovered constants always weigh strictly less
than the block itself), the loop never exhausts its fuel — it ends in a
finished document or in a propagated exception, never in an infinite drain.
The claim's no-cycle hypothesis is intrinsic here: code objects are finite
trees, so a block cannot reference itself or an ancestor. -/
theorem drain_terminates (q : QList) (txt : String) :
    drainLoop (sizeQ q) q txt ≠ RunResult.fuelOut :=
  drain_nofuel (sizeQ q) q txt le_rfl
